import Mathlib

/-!
Shallow embedding of the esp8266-rtos-softserial library
(src/softserial.c, src/softserial.h) and proofs about it.

The C code is embedded as pure Lean functions over explicit state.
Machine integers are modelled as `Nat` with explicit `% 2^w` at the
points where the C types can actually wrap; indices stay in bounds
by the ring-buffer invariant proved below.
-/

namespace SoftSerial

/-- Constant `SOFTSERIAL_MAX_RX_BUF` from softserial.h line 11. -/
def SOFTSERIAL_MAX_RX_BUF : Nat := 64

/-- Structure `softserial_buffer_t` from softserial.h lines 13-18: a 64-slot byte
ring buffer with `tail` (producer index), `head` (consumer index) and a
sticky `overrun` flag.  `data` is the 64-byte array, modelled as a list
of length 64; `tail`, `head`, `overrun` are `uint8_t` fields. -/
structure Buffer where
  data : List Nat
  tail : Nat
  head : Nat
  overrun : Nat
  deriving Repr, DecidableEq

/-- The all-zero empty buffer with `head = tail = t`. -/
def emptyBuf (t : Nat) : Buffer :=
  { data := List.replicate 64 0, tail := t, head := t, overrun := 0 }

/-- Ring-buffer producer step, from `softserial_isr` lines 76-85:
`next = (tail+1) % SOFTSERIAL_MAX_RX_BUF`; if `next != head` store the
byte at `tail` and advance `tail`, otherwise set the overrun flag and
drop the byte. -/
def bufPush (b : Buffer) (d : Nat) : Buffer :=
  if (b.tail + 1) % SOFTSERIAL_MAX_RX_BUF ≠ b.head then
    { b with data := b.data.set b.tail d,
             tail := (b.tail + 1) % SOFTSERIAL_MAX_RX_BUF }
  else
    { b with overrun := 1 }

/-- Function `softserial_getc`, lines 198-209: return 0 on an empty buffer,
otherwise fetch the byte at `head` and advance `head` mod 64.
Returns the byte together with the updated buffer. -/
def softserial_getc (b : Buffer) : Nat × Buffer :=
  if b.head = b.tail then (0, b)
  else
    (b.data.getD b.head 0,
     { b with head := (b.head + 1) % SOFTSERIAL_MAX_RX_BUF })

/-- Function `softserial_available`, lines 212-215:
`(tail + SOFTSERIAL_MAX_RX_BUF - head) % SOFTSERIAL_MAX_RX_BUF`.
(`tail`, `head` are below 64 by the buffer invariant, so the `uint8_t`
arithmetic never wraps.) -/
def softserial_available (b : Buffer) : Nat :=
  (b.tail + SOFTSERIAL_MAX_RX_BUF - b.head) % SOFTSERIAL_MAX_RX_BUF

/-- Function `softserial_overrun`, lines 295-302: read the flag; clear it when it
was set.  Returns the old flag value together with the updated buffer. -/
def softserial_overrun (b : Buffer) : Nat × Buffer :=
  if b.overrun ≠ 0 then (b.overrun, { b with overrun := 0 })
  else (b.overrun, b)

/-- The ring-buffer invariant maintained by all operations: the data
array has exactly 64 slots and both indices are in bounds. -/
def Inv (b : Buffer) : Prop :=
  b.data.length = 64 ∧ b.head < 64 ∧ b.tail < 64

instance (b : Buffer) : Decidable (Inv b) := by
  unfold Inv; infer_instance

/-- The sequence of bytes currently queued, oldest first: the
`available` bytes starting at `head`, wrapping mod 64. -/
def queued (b : Buffer) : List Nat :=
  (List.range (softserial_available b)).map
    (fun i => b.data.getD ((b.head + i) % 64) 0)

/-! ### LineReader: `read_internal`, `softserial_read`, `softserial_readline` -/

/-- On the target (ESP8266, 32-bit) `size_t` is 32 bits wide; the
`len < maxlen - 1` comparison in `read_internal` is unsigned, so for
`maxlen = 0` the bound `maxlen - 1` wraps to `2^32 - 1`. -/
def sizeCap (maxlen : Nat) : Nat := (maxlen + (2 ^ 32 - 1)) % 2 ^ 32

/-- The dequeue loop of `read_internal` lines 312-325:
`while available: ch = getc; if (checklf and ch == 10) break;
else if (len < maxlen-1) store ch; else break`.  The loop consumes at
most one byte per iteration, so fuel 64 (> buffer capacity) is enough
under the buffer invariant.  Returns the stored bytes and the final
buffer. -/
def read_loop : Nat → Buffer → Bool → Nat → Nat → List Nat × Buffer
  | 0, b, _, _, _ => ([], b)
  | fuel + 1, b, checklf, cap, len =>
    if softserial_available b ≠ 0 then
      if checklf ∧ (softserial_getc b).1 = 10 then ([], (softserial_getc b).2)
      else if len < cap then
        ((softserial_getc b).1 ::
           (read_loop fuel (softserial_getc b).2 checklf cap (len + 1)).1,
         (read_loop fuel (softserial_getc b).2 checklf cap (len + 1)).2)
      else ([], (softserial_getc b).2)
    else ([], b)

/-- Function `read_internal`, lines 304-330: first check-and-clear the overrun
flag, returning -1 without touching the queue when it was set;
otherwise run the dequeue loop and append the `0` terminator.
Result: (return value, bytes written to the caller's buffer, final
ring buffer). -/
def read_internal (b : Buffer) (maxlen : Nat) (checklf : Bool) :
    Int × List Nat × Buffer :=
  if (softserial_overrun b).1 ≠ 0 then (-1, [], (softserial_overrun b).2)
  else
    (((read_loop 64 (softserial_overrun b).2 checklf (sizeCap maxlen) 0).1.length : Int),
     (read_loop 64 (softserial_overrun b).2 checklf (sizeCap maxlen) 0).1 ++ [0],
     (read_loop 64 (softserial_overrun b).2 checklf (sizeCap maxlen) 0).2)

/-- Function `softserial_readline`, lines 332-335: `read_internal` with
`checklf = 1`. -/
def softserial_readline (b : Buffer) (maxlen : Nat) :
    Int × List Nat × Buffer :=
  read_internal b maxlen true

/-- Function `softserial_read`, lines 337-340: `read_internal` with
`checklf = 0`. -/
def softserial_read (b : Buffer) (maxlen : Nat) :
    Int × List Nat × Buffer :=
  read_internal b maxlen false

/-! ### PinRegistry and init -/

/-- Error code `ESP_ERR_INVALID_ARG` (esp_err.h). -/
def ESP_ERR_INVALID_ARG : Nat := 0x102
/-- Error code `ESP_ERR_INVALID_STATE` (esp_err.h). -/
def ESP_ERR_INVALID_STATE : Nat := 0x103

/-- The process-wide globals of softserial.c lines 15-17: the
`used_pins` bitmask and the `numinstances` counter (`uint8_t`). -/
structure GlobalState where
  used_pins : Nat
  numinstances : Nat
  deriving Repr, DecidableEq

/-- Function `check_pins`, lines 22-38: reject when the RX mask intersects the TX
mask, or either mask intersects `used_pins`; otherwise OR both masks
into `used_pins`.  Returns the `esp_err_t` (0 = `ESP_OK`) and the
updated globals. -/
def check_pins (g : GlobalState) (out_pbm in_pbm : Nat) :
    Nat × GlobalState :=
  if in_pbm &&& out_pbm ≠ 0 then (ESP_ERR_INVALID_ARG, g)
  else if g.used_pins &&& out_pbm ≠ 0 then (ESP_ERR_INVALID_ARG, g)
  else if g.used_pins &&& in_pbm ≠ 0 then (ESP_ERR_INVALID_ARG, g)
  else (0, { g with used_pins := g.used_pins ||| (in_pbm ||| out_pbm) })

/-- Feature bits from softserial.h lines 20-24. -/
def SOFTSERIAL_USE_RX : Nat := 1
/-- Feature bit `SOFTSERIAL_USE_TX`. -/
def SOFTSERIAL_USE_TX : Nat := 2
/-- Feature bit `SOFTSERIAL_USE_RS485`. -/
def SOFTSERIAL_USE_RS485 : Nat := 4

/-- The caller-supplied configuration fields of `softserial` read by
`softserial_init` (softserial.h lines 26-71). -/
structure Config where
  features : Nat
  baudrate : Nat
  rx_pin : Nat
  tx_pin : Nat
  rs485_pin : Nat
  deriving Repr, DecidableEq

/-- Return codes of the platform primitives `softserial_init` calls
(`gpio_install_isr_service`, `gpio_config` for TX and RX,
`gpio_isr_handler_add`); 0 = `ESP_OK`. -/
structure Platform where
  install_isr_ret : Nat
  tx_config_ret : Nat
  rx_config_ret : Nat
  isr_add_ret : Nat
  deriving Repr, DecidableEq

/-- The `bit_time` computation from `softserial_init` lines 130-141,
with the C types made explicit: `baudrate` is `uint32_t`, so
`baudrate <= 0` means `baudrate == 0`; `bit_time` is a `uint16_t`
field, so the stored quotient is truncated mod 2^16; the comparison
`(100000000 / baudrate) - (100 * bit_time) > 50` is evaluated in
`uint32_t` arithmetic (wrapping subtraction); the increment wraps at
2^16.  Returns `none` on the invalid-baud error path. -/
def compute_bit_time (baud : Nat) : Option Nat :=
  if baud = 0 then none
  else if (100000000 / baud + 2 ^ 32 -
      100 * (1000000 / baud % 2 ^ 16)) % 2 ^ 32 > 50 then
    some ((1000000 / baud % 2 ^ 16 + 1) % 2 ^ 16)
  else
    some (1000000 / baud % 2 ^ 16)

/-- The bit-time rule as the spec states it (§4.2), for comparison with
`compute_bit_time`: `base = floor(1000000/baud)`, incremented when
`floor(100000000/baud) - 100*base > 50`, with no width truncation. -/
def bit_time_spec (baud : Nat) : Option Nat :=
  if baud = 0 then none
  else if 100000000 / baud - 100 * (1000000 / baud) > 50 then
    some (1000000 / baud + 1)
  else
    some (1000000 / baud)

/-- The TX pin bitmask built in `softserial_init` lines 108-124:
`1 << tx_pin`, plus `1 << rs485_pin` when the RS485 feature is set. -/
def tx_mask (c : Config) : Nat :=
  (1 <<< c.tx_pin) |||
    (if c.features &&& SOFTSERIAL_USE_RS485 ≠ 0 then 1 <<< c.rs485_pin
     else 0)

/-- The RX pin bitmask built in `softserial_init` lines 115-121:
`1 << rx_pin`. -/
def rx_mask (c : Config) : Nat := 1 <<< c.rx_pin

/-- The `numinstances++` of line 151 (`numinstances` is a `uint8_t`). -/
def bumpInstances (g : GlobalState) : GlobalState :=
  { g with numinstances := (g.numinstances + 1) % 2 ^ 8 }

/-- Function `softserial_init`, lines 104-194, restricted to its effect on the
process-wide globals and its return value (the GPIO configuration
calls themselves are the `Platform` oracle).  Faithful control flow:
`check_pins` runs first (and on success has already claimed the pins);
the baud check follows; `gpio_install_isr_service` runs only for the
first instance, tolerating `ESP_ERR_INVALID_STATE`; `numinstances++`
(a `uint8_t`) precedes the TX/RX pin configuration and ISR
registration, each of which returns early on a platform error. -/
def softserial_init (g : GlobalState) (c : Config) (p : Platform) :
    Nat × GlobalState :=
  if (check_pins g (tx_mask c) (rx_mask c)).1 ≠ 0 then
    ((check_pins g (tx_mask c) (rx_mask c)).1,
     (check_pins g (tx_mask c) (rx_mask c)).2)
  else if c.baudrate = 0 then
    (ESP_ERR_INVALID_ARG, (check_pins g (tx_mask c) (rx_mask c)).2)
  else if (check_pins g (tx_mask c) (rx_mask c)).2.numinstances = 0 ∧
      p.install_isr_ret ≠ 0 ∧
      p.install_isr_ret ≠ ESP_ERR_INVALID_STATE then
    (p.install_isr_ret, (check_pins g (tx_mask c) (rx_mask c)).2)
  else if c.features &&& SOFTSERIAL_USE_TX ≠ 0 ∧ p.tx_config_ret ≠ 0 then
    (p.tx_config_ret, bumpInstances (check_pins g (tx_mask c) (rx_mask c)).2)
  else if c.features &&& SOFTSERIAL_USE_RX ≠ 0 ∧ p.rx_config_ret ≠ 0 then
    (p.rx_config_ret, bumpInstances (check_pins g (tx_mask c) (rx_mask c)).2)
  else if c.features &&& SOFTSERIAL_USE_RX ≠ 0 ∧ p.isr_add_ret ≠ 0 then
    (p.isr_add_ret, bumpInstances (check_pins g (tx_mask c) (rx_mask c)).2)
  else (0, bumpInstances (check_pins g (tx_mask c) (rx_mask c)).2)

/-! ### TxEncoder / RxSampler bit-level model -/

/-- Function `chbit`, lines 217-225: 1 when `data & bit` is nonzero, else 0. -/
def chbit (data bit : Nat) : Nat :=
  if data &&& bit ≠ 0 then 1 else 0

/-- The level-change schedule `softserial_putchar` (lines 241-266)
drives on the TX pin, as (time offset in µs from the start-bit edge,
level) pairs: the start bit (low) at time 0, data bit `i` (LSB first,
`chbit data (1 <<< i)`) once elapsed time reaches `bit_time*(i+1)`,
and the stop bit (high) at `bit_time*9`. -/
def putchar_events (data bit_time : Nat) : List (Nat × Nat) :=
  (0, 0) ::
    ((List.range 8).map
      (fun i => (bit_time * (i + 1), chbit data (1 <<< i)))) ++
    [(bit_time * 9, 1)]

/-- The pin level at time `t` given a chronological schedule of level
changes: the level of the latest event at or before `t` (the line
idles high before the start edge). -/
def line_level (events : List (Nat × Nat)) (t : Nat) : Nat :=
  events.foldl (fun acc e => if e.1 ≤ t then e.2 else acc) 1

/-- One bit of the RX decode rule from `softserial_isr` lines 70-74:
`data >>= 1; if (level) data |= 0x80`. -/
def rx_decode_step (acc level : Nat) : Nat :=
  let a := acc / 2
  if level ≠ 0 then a ||| 0x80 else a

/-- The receiver's sampling of `softserial_isr` lines 57-75: after the
falling edge it delays `bit_time / 2`, records `start_time`, and for
`i = 0..7` busy-waits until `start_time + bit_time*(i+1)` before
sampling — so bit `i` is read from the line at offset
`bit_time / 2 + bit_time*(i+1)` from the edge, and folded in with
`rx_decode_step`. -/
def rx_sample (line : Nat → Nat) (bit_time : Nat) : Nat :=
  (List.range 8).foldl
    (fun acc i => rx_decode_step acc (line (bit_time / 2 + bit_time * (i + 1))))
    0

/-! ### Iterated producer / consumer steps, and concrete test states -/

/-- Iterate the ISR's producer step `bufPush` over a list of bytes. -/
def pushList (b : Buffer) (ds : List Nat) : Buffer :=
  ds.foldl bufPush b

/-- Iterate the consumer step `softserial_getc` `n` times. -/
def popN : Buffer → Nat → Buffer
  | b, 0 => b
  | b, n + 1 => popN (softserial_getc b).2 n

/-- A completely full buffer: `tail = 63`, `head = 0`, so
`(tail + 1) % 64 = head`. -/
def fullB : Buffer :=
  { data := List.replicate 64 0, tail := 63, head := 0, overrun := 0 }

/-- A buffer with the two bytes 65, 66 queued. -/
def twoB : Buffer :=
  { data := ((List.replicate 64 0).set 0 65).set 1 66,
    tail := 2, head := 0, overrun := 0 }

/-- A buffer with one byte queued and the overrun flag set. -/
def ovrB : Buffer :=
  { data := (List.replicate 64 0).set 0 65,
    tail := 1, head := 0, overrun := 1 }

/-- A buffer with the bytes of the string "AB\nCD"
(65, 66, 10, 67, 68) queued. -/
def abcdB : Buffer :=
  { data := (((((List.replicate 64 0).set 0 65).set 1 66).set 2 10).set 3 67).set 4 68,
    tail := 5, head := 0, overrun := 0 }

/-- Globals with no pins claimed and no instances. -/
def g0 : GlobalState := { used_pins := 0, numinstances := 0 }

/-- A configuration whose TX and RX pins coincide (pin 4). -/
def cfgConflict : Config :=
  { features := 3, baudrate := 9600, rx_pin := 4, tx_pin := 4,
    rs485_pin := 0 }

/-- A configuration with valid distinct pins but zero baud rate. -/
def cfgBaud0 : Config :=
  { features := 3, baudrate := 0, rx_pin := 4, tx_pin := 2,
    rs485_pin := 0 }

/-- Platform oracle on which every GPIO call succeeds. -/
def pOk : Platform :=
  { install_isr_ret := 0, tx_config_ret := 0, rx_config_ret := 0,
    isr_add_ret := 0 }

/-- A configuration with valid distinct pins and a valid baud rate. -/
def cfgOk : Config :=
  { features := 3, baudrate := 9600, rx_pin := 4, tx_pin := 2,
    rs485_pin := 0 }

/-- Platform oracle that rejects the TX pin configuration
(`gpio_config` for TX returns an error) while everything else
succeeds. -/
def pFailTx : Platform :=
  { install_isr_ret := 0, tx_config_ret := 1, rx_config_ret := 0,
    isr_add_ret := 0 }

/-! ## Basic lemmas about the ring-buffer operations -/

theorem avail_lt (b : Buffer) : softserial_available b < 64 := by
  unfold softserial_available SOFTSERIAL_MAX_RX_BUF
  omega

theorem queued_length (b : Buffer) :
    (queued b).length = softserial_available b := by
  simp [queued]

theorem getc_fields (b : Buffer) :
    (softserial_getc b).2.data = b.data ∧
    (softserial_getc b).2.tail = b.tail ∧
    (softserial_getc b).2.overrun = b.overrun := by
  unfold softserial_getc
  split <;> simp

theorem getc_inv (b : Buffer) (h : Inv b) : Inv (softserial_getc b).2 := by
  obtain ⟨hd, hh, ht⟩ := h
  unfold softserial_getc Inv SOFTSERIAL_MAX_RX_BUF
  split
  · exact ⟨hd, hh, ht⟩
  · exact ⟨hd, Nat.mod_lt _ (by omega), ht⟩

theorem getc_avail (b : Buffer) (h : Inv b)
    (ha : softserial_available b ≠ 0) :
    softserial_available (softserial_getc b).2 =
      softserial_available b - 1 := by
  obtain ⟨hd, hh, ht⟩ := h
  unfold softserial_getc softserial_available SOFTSERIAL_MAX_RX_BUF at *
  split
  · omega
  · show ((b.tail + 64 - (b.head + 1) % 64) % 64 : Nat) = _
    omega

theorem getc_queued (b : Buffer) (h : Inv b)
    (ha : softserial_available b ≠ 0) :
    queued b = (softserial_getc b).1 :: queued (softserial_getc b).2 := by
  obtain ⟨hd, hh, ht⟩ := h
  have hne : b.head ≠ b.tail := by
    intro he
    apply ha
    unfold softserial_available SOFTSERIAL_MAX_RX_BUF
    omega
  obtain ⟨n, hn⟩ : ∃ n, softserial_available b = n + 1 :=
    ⟨softserial_available b - 1, by omega⟩
  have havail2 : softserial_available (softserial_getc b).2 = n := by
    have := getc_avail b ⟨hd, hh, ht⟩ ha
    omega
  unfold queued
  rw [hn, havail2, List.range_succ_eq_map]
  unfold softserial_getc at *
  rw [if_neg hne] at *
  dsimp only
  rw [List.map_cons, List.map_map]
  refine congrArg₂ _ ?_ ?_
  · rw [Nat.add_zero, Nat.mod_eq_of_lt hh]
  · refine List.map_congr_left fun x _ => ?_
    exact congrArg (fun ix => List.getD b.data ix 0)
      (by unfold SOFTSERIAL_MAX_RX_BUF; omega)

theorem push_ok (b : Buffer) (d : Nat) (h : Inv b)
    (ha : softserial_available b < 63) :
    softserial_available (bufPush b d) = softserial_available b + 1 ∧
    Inv (bufPush b d) := by
  obtain ⟨hd, hh, ht⟩ := h
  have hne : (b.tail + 1) % SOFTSERIAL_MAX_RX_BUF ≠ b.head := by
    unfold softserial_available SOFTSERIAL_MAX_RX_BUF at ha
    unfold SOFTSERIAL_MAX_RX_BUF
    omega
  unfold bufPush
  rw [if_pos hne]
  unfold softserial_available Inv SOFTSERIAL_MAX_RX_BUF at *
  dsimp only
  rw [List.length_set]
  exact ⟨by omega, hd, by omega, by omega⟩

theorem pushList_avail (ds : List Nat) :
    ∀ b : Buffer, Inv b →
      softserial_available b + ds.length ≤ 63 →
      softserial_available (pushList b ds) =
        softserial_available b + ds.length ∧
      Inv (pushList b ds) := by
  induction ds with
  | nil => intro b h _; exact ⟨rfl, h⟩
  | cons d ds ih =>
    intro b h hle
    have h1 := push_ok b d h (by simp at hle; omega)
    have h2 := ih (bufPush b d) h1.2 (by simp at hle ⊢; omega)
    unfold pushList at *
    rw [List.foldl_cons]
    refine ⟨?_, h2.2⟩
    rw [h2.1, h1.1]
    simp
    omega

theorem popN_avail (j : Nat) :
    ∀ b : Buffer, Inv b → j ≤ softserial_available b →
      softserial_available (popN b j) = softserial_available b - j ∧
      Inv (popN b j) := by
  induction j with
  | zero => intro b h _; exact ⟨rfl, h⟩
  | succ n ih =>
    intro b h hle
    have hne : softserial_available b ≠ 0 := by omega
    have h1 := getc_avail b h hne
    have h2 := ih (softserial_getc b).2 (getc_inv b h) (by omega)
    unfold popN
    refine ⟨?_, h2.2⟩
    rw [h2.1, h1]
    omega

theorem emptyBuf_avail (t : Nat) : softserial_available (emptyBuf t) = 0 := by
  unfold softserial_available emptyBuf SOFTSERIAL_MAX_RX_BUF
  dsimp only
  omega

theorem emptyBuf_inv (t : Nat) (h : t < 64) : Inv (emptyBuf t) := by
  unfold Inv emptyBuf
  refine ⟨List.length_replicate 64 0, h, h⟩

theorem read_loop_inv (fuel : Nat) :
    ∀ (b : Buffer) (checklf : Bool) (cap len : Nat), Inv b →
      Inv (read_loop fuel b checklf cap len).2 ∧
      (read_loop fuel b checklf cap len).2.overrun = b.overrun := by
  induction fuel with
  | zero => intro b _ _ _ h; exact ⟨h, rfl⟩
  | succ n ih =>
    intro b checklf cap len h
    unfold read_loop
    split
    · split
      · exact ⟨getc_inv b h, (getc_fields b).2.2⟩
      · split
        · have h2 := ih (softserial_getc b).2 checklf cap (len + 1)
            (getc_inv b h)
          exact ⟨h2.1, h2.2.trans (getc_fields b).2.2⟩
        · exact ⟨getc_inv b h, (getc_fields b).2.2⟩
    · exact ⟨h, rfl⟩

theorem push_inv (b : Buffer) (d : Nat) (h : Inv b) : Inv (bufPush b d) := by
  obtain ⟨hd, hh, ht⟩ := h
  unfold bufPush Inv SOFTSERIAL_MAX_RX_BUF
  split
  · refine ⟨?_, hh, Nat.mod_lt _ (by omega)⟩
    dsimp only
    rw [List.length_set]
    exact hd
  · exact ⟨hd, hh, ht⟩

theorem overrun_inv (b : Buffer) (h : Inv b) :
    Inv (softserial_overrun b).2 := by
  obtain ⟨hd, hh, ht⟩ := h
  unfold softserial_overrun
  split
  · exact ⟨hd, hh, ht⟩
  · exact ⟨hd, hh, ht⟩

theorem queued_nil (b : Buffer) (ha : softserial_available b = 0) :
    queued b = [] := by
  have h := queued_length b
  rw [ha] at h
  exact List.length_eq_zero.mp h

theorem read_loop_read_spec (fuel : Nat) :
    ∀ (b : Buffer) (cap len : Nat), Inv b →
      softserial_available b ≤ fuel →
      (read_loop fuel b false cap len).1 = (queued b).take (cap - len) ∧
      queued (read_loop fuel b false cap len).2 =
        (queued b).drop
          (min (softserial_available b) (cap - len + 1)) ∧
      (read_loop fuel b false cap len).1.length =
        min (softserial_available b) (cap - len) := by
  induction fuel with
  | zero =>
    intro b cap len _ hle
    have ha : softserial_available b = 0 := by omega
    have hq := queued_nil b ha
    unfold read_loop
    simp [hq, ha]
  | succ n ih =>
    intro b cap len h hle
    by_cases ha : softserial_available b = 0
    · have hq := queued_nil b ha
      unfold read_loop
      rw [if_neg (not_not_intro ha)]
      simp [hq, ha]
    · have hqc := getc_queued b h ha
      have hai := getc_avail b h ha
      have hinv2 := getc_inv b h
      unfold read_loop
      rw [if_pos ha, if_neg (by simp)]
      by_cases hlen : len < cap
      · rw [if_pos hlen]
        have IH := ih (softserial_getc b).2 cap (len + 1) hinv2 (by omega)
        dsimp only
        refine ⟨?_, ?_, ?_⟩
        · rw [hqc]
          obtain ⟨m, hm⟩ : ∃ m, cap - len = m + 1 :=
            ⟨cap - len - 1, by omega⟩
          rw [hm, List.take_succ_cons, IH.1]
          have : cap - (len + 1) = m := by omega
          rw [this]
        · rw [IH.2.1, hqc, hai]
          obtain ⟨k, hk⟩ :
              ∃ k, min (softserial_available b) (cap - len + 1) = k + 1 :=
            ⟨min (softserial_available b) (cap - len + 1) - 1, by omega⟩
          rw [hk, List.drop_succ_cons]
          have : min (softserial_available b - 1) (cap - (len + 1) + 1) = k := by
            omega
          rw [this]
        · rw [List.length_cons, IH.2.2, hai]
          omega
      · rw [if_neg hlen]
        dsimp only
        have hc : cap - len = 0 := by omega
        refine ⟨?_, ?_, ?_⟩
        · rw [hc, List.take_zero]
        · have : min (softserial_available b) (cap - len + 1) = 1 := by
            omega
          rw [this, hqc, List.drop_succ_cons, List.drop_zero]
        · rw [List.length_nil, hc]
          omega

/-! ## Claim theorems -/

/-- C2: for every in-bounds ring-buffer state, pushing a byte when
`(tail+1) mod 64 == head` is rejected: the overrun flag is set and
`data`, `head` and `tail` are all unchanged (the new byte is dropped,
not the oldest); pushing into a buffer holding fewer than 63 bytes
stores the byte at `tail`, advances `tail` by one mod 64, and leaves
the overrun flag exactly as it was — in particular it never sets it. -/
theorem claim2_push (b : Buffer) (d : Nat) :
    ((b.tail + 1) % 64 = b.head →
      (bufPush b d).overrun = 1 ∧ (bufPush b d).data = b.data ∧
      (bufPush b d).head = b.head ∧ (bufPush b d).tail = b.tail) ∧
    (Inv b → softserial_available b < 63 →
      (bufPush b d).data = b.data.set b.tail d ∧
      (bufPush b d).tail = (b.tail + 1) % 64 ∧
      (bufPush b d).head = b.head ∧
      (bufPush b d).overrun = b.overrun) := by
  constructor
  · intro he
    unfold bufPush SOFTSERIAL_MAX_RX_BUF
    rw [if_neg (not_not_intro he)]
    exact ⟨rfl, rfl, rfl, rfl⟩
  · intro h ha
    obtain ⟨hd, hh, ht⟩ := h
    have hne : (b.tail + 1) % 64 ≠ b.head := by
      unfold softserial_available SOFTSERIAL_MAX_RX_BUF at ha
      omega
    unfold bufPush SOFTSERIAL_MAX_RX_BUF
    rw [if_pos hne]
    exact ⟨rfl, rfl, rfl, rfl⟩

/-- Witness for C2 at concrete states: a full buffer
(`tail = 63`, `head = 0`) and an empty buffer. -/
theorem claim2_push_witness :
    ((fullB.tail + 1) % 64 = fullB.head ∧ (bufPush fullB 7).overrun = 1) ∧
    (Inv (emptyBuf 0) ∧ softserial_available (emptyBuf 0) < 63 ∧
      (bufPush (emptyBuf 0) 7).tail = ((emptyBuf 0).tail + 1) % 64) :=
  ⟨⟨by decide, ((claim2_push fullB 7).1 (by decide)).1⟩,
   by decide, by decide,
   ((claim2_push (emptyBuf 0) 7).2 (by decide) (by decide)).2.1⟩

/-- C9: `softserial_available` computes `(tail - head + 64) mod 64`,
and starting from an empty buffer, pushing `k ≤ 63` bytes and then
popping `j ≤ k` of them leaves `available()` equal to `k - j`. -/
theorem claim9_available (b : Buffer) (t : Nat) (ds : List Nat) (j : Nat) :
    softserial_available b = (b.tail + 64 - b.head) % 64 ∧
    (t < 64 → ds.length ≤ 63 → j ≤ ds.length →
      softserial_available (popN (pushList (emptyBuf t) ds) j) =
        ds.length - j) := by
  refine ⟨rfl, fun ht hlen hj => ?_⟩
  have h1 := pushList_avail ds (emptyBuf t) (emptyBuf_inv t ht)
    (by rw [emptyBuf_avail]; omega)
  rw [emptyBuf_avail] at h1
  have h2 := popN_avail j (pushList (emptyBuf t) ds) h1.2
    (by omega)
  rw [h2.1, h1.1]
  omega

/-- Witness for C9: push three bytes into an empty buffer and pop one;
one slot of data remains in two slots worth of pushes... concretely,
`available` is 2. -/
theorem claim9_available_witness :
    (0 : Nat) < 64 ∧ ([1, 2, 3] : List Nat).length ≤ 63 ∧
    1 ≤ ([1, 2, 3] : List Nat).length ∧
    softserial_available (popN (pushList (emptyBuf 0) [1, 2, 3]) 1) =
      ([1, 2, 3] : List Nat).length - 1 :=
  ⟨by decide, by decide, by decide,
   (claim9_available fullB 0 [1, 2, 3] 1).2 (by decide) (by decide)
     (by decide)⟩

/-- C10: under the invariant `head < 64 ∧ tail < 64` (with the data
array of length 64), the ISR push, `getc` and the `read`/`readline`
drain all preserve it, so every data-array access stays in bounds;
moreover push changes `head` not at all and `tail` only to
`(tail+1) mod 64`, and `getc` changes `tail` not at all and `head`
only to `(head+1) mod 64`. -/
theorem claim10_inv (b : Buffer) (d maxlen : Nat) (lf : Bool)
    (h : Inv b) :
    Inv (bufPush b d) ∧
    Inv (softserial_getc b).2 ∧
    Inv (read_internal b maxlen lf).2.2 ∧
    (bufPush b d).head = b.head ∧
    ((bufPush b d).tail = b.tail ∨
      (bufPush b d).tail = (b.tail + 1) % 64) ∧
    (softserial_getc b).2.tail = b.tail ∧
    ((softserial_getc b).2.head = b.head ∨
      (softserial_getc b).2.head = (b.head + 1) % 64) := by
  refine ⟨push_inv b d h, getc_inv b h, ?_, ?_, ?_, ?_, ?_⟩
  · unfold read_internal
    split
    · exact overrun_inv b h
    · exact (read_loop_inv 64 (softserial_overrun b).2 lf (sizeCap maxlen) 0
        (overrun_inv b h)).1
  · unfold bufPush SOFTSERIAL_MAX_RX_BUF
    split <;> rfl
  · unfold bufPush SOFTSERIAL_MAX_RX_BUF
    split
    · exact Or.inr rfl
    · exact Or.inl rfl
  · unfold softserial_getc
    split <;> rfl
  · unfold softserial_getc SOFTSERIAL_MAX_RX_BUF
    split
    · exact Or.inl rfl
    · exact Or.inr rfl

/-- Witness for C10 at a concrete in-bounds state. -/
theorem claim10_inv_witness :
    Inv twoB ∧ Inv (bufPush twoB 7) ∧ Inv (read_internal twoB 5 false).2.2 :=
  ⟨by decide, (claim10_inv twoB 7 5 false (by decide)).1,
   (claim10_inv twoB 7 5 false (by decide)).2.2.1⟩

/-- C3 as stated is false: `read_internal` dequeues a byte *before*
discovering that the output is already full, and then discards it.
With the bytes 65, 66 queued and `max_len = 2`, `softserial_read`
copies only 65 (count 1), yet byte 66 does not remain queued for a
subsequent call — the buffer is left empty. -/
theorem claim3_read_cex :
    (softserial_read twoB 2).1 = 1 ∧
    (softserial_read twoB 2).2.1 = [65, 0] ∧
    queued (softserial_read twoB 2).2.2 = [] ∧
    softserial_available (softserial_read twoB 2).2.2 = 0 := by
  decide

/-- C3 (amended): for every in-bounds buffer state with the overrun
flag clear and every `max_len`, `softserial_read` dequeues bytes while
available, stops once `max_len - 1` bytes (`sizeCap max_len`, the
32-bit unsigned value of `max_len - 1`) are collected, writes the 0
sentinel after them, and returns the count collected.  The bytes that
remain queued are the queue minus the first
`min(available, max_len - 1 + 1)` bytes: when the read stops because
the output is full while data remains, the byte dequeued in that last
iteration is consumed and discarded, and only the bytes after it stay
queued. -/
theorem claim3_read (b : Buffer) (maxlen : Nat) (h : Inv b)
    (hov : b.overrun = 0) :
    (softserial_read b maxlen).1 =
      ((min (softserial_available b) (sizeCap maxlen) : Nat) : Int) ∧
    (softserial_read b maxlen).2.1 =
      (queued b).take (sizeCap maxlen) ++ [0] ∧
    queued (softserial_read b maxlen).2.2 =
      (queued b).drop
        (min (softserial_available b) (sizeCap maxlen + 1)) ∧
    (softserial_read b maxlen).2.2.overrun = 0 := by
  have hov2 : softserial_overrun b = (b.overrun, b) := by
    unfold softserial_overrun
    rw [if_neg (not_not_intro hov)]
  have hloop := read_loop_read_spec 64 b (sizeCap maxlen) 0 h
    (le_of_lt (avail_lt b))
  have hinv := read_loop_inv 64 b false (sizeCap maxlen) 0 h
  unfold softserial_read read_internal
  rw [hov2]
  dsimp only
  rw [if_neg (not_not_intro hov)]
  dsimp only
  rw [Nat.sub_zero] at hloop
  refine ⟨?_, ?_, ?_, ?_⟩
  · rw [hloop.2.2]
  · rw [hloop.1]
  · rw [hloop.2.1]
  · rw [hinv.2, hov]

/-- Witness for C3 (amended) at a concrete state. -/
theorem claim3_read_witness :
    Inv twoB ∧ twoB.overrun = 0 ∧
    (softserial_read twoB 4).2.1 =
      (queued twoB).take (sizeCap 4) ++ [0] :=
  ⟨by decide, by decide, (claim3_read twoB 4 (by decide) rfl).2.1⟩

/-- C6: when the sticky overrun flag is set, the overrun condition is
surfaced exactly once and then cleared: `softserial_overrun` returns
it and clears it; `read_internal` (both `read` and `readline`) returns
-1 without consuming any buffered byte — the queue is untouched, so
all queued data is still available — and leaves the flag cleared, so a
following `overrun()` reports 0 and a following read succeeds (returns
a non-negative count). -/
theorem claim6_overrun_once (b : Buffer) (maxlen : Nat) (lf : Bool)
    (hov : b.overrun ≠ 0) :
    softserial_overrun b = (b.overrun, { b with overrun := 0 }) ∧
    (read_internal b maxlen lf).1 = -1 ∧
    (read_internal b maxlen lf).2.2 = { b with overrun := 0 } ∧
    queued (read_internal b maxlen lf).2.2 = queued b ∧
    (softserial_overrun (read_internal b maxlen lf).2.2).1 = 0 ∧
    0 ≤ (read_internal (read_internal b maxlen lf).2.2 maxlen lf).1 := by
  have hov2 : softserial_overrun b = (b.overrun, { b with overrun := 0 }) := by
    unfold softserial_overrun
    rw [if_pos hov]
  have hclr : softserial_overrun { b with overrun := 0 } =
      (0, { b with overrun := 0 }) := by
    unfold softserial_overrun
    rw [if_neg (not_not_intro rfl)]
  have hread : read_internal b maxlen lf = (-1, [], { b with overrun := 0 }) := by
    unfold read_internal
    rw [hov2]
    dsimp only
    rw [if_pos hov]
  refine ⟨hov2, by rw [hread], by rw [hread], by rw [hread]; rfl, ?_, ?_⟩
  · rw [hread]
    dsimp only
    rw [hclr]
  · rw [hread]
    dsimp only
    unfold read_internal
    rw [hclr]
    dsimp only
    rw [if_neg (not_not_intro rfl)]
    exact Int.natCast_nonneg _

/-- Witness for C6 at a concrete state with the flag set. -/
theorem claim6_overrun_once_witness :
    ovrB.overrun ≠ 0 ∧ (read_internal ovrB 10 false).1 = -1 ∧
    queued (read_internal ovrB 10 false).2.2 = queued ovrB :=
  ⟨by decide, (claim6_overrun_once ovrB 10 false (by decide)).2.1,
   (claim6_overrun_once ovrB 10 false (by decide)).2.2.2.1⟩

theorem read_loop_line_spec (xs : List Nat) :
    ∀ (fuel : Nat) (b : Buffer) (cap len : Nat) (ys : List Nat), Inv b →
      softserial_available b ≤ fuel →
      queued b = xs ++ 10 :: ys →
      10 ∉ xs →
      len + xs.length ≤ cap →
      (read_loop fuel b true cap len).1 = xs ∧
      queued (read_loop fuel b true cap len).2 = ys := by
  induction xs with
  | nil =>
    intro fuel b cap len ys h hle hq _ _
    rw [List.nil_append] at hq
    have ha : softserial_available b ≠ 0 := by
      have hl := queued_length b
      rw [hq] at hl
      simp at hl
      omega
    obtain ⟨m, rfl⟩ : ∃ m, fuel = m + 1 := ⟨fuel - 1, by omega⟩
    have hqc := getc_queued b h ha
    rw [hq] at hqc
    simp only [List.cons.injEq] at hqc
    unfold read_loop
    rw [if_pos ha, if_pos ⟨rfl, hqc.1.symm⟩]
    exact ⟨rfl, hqc.2.symm⟩
  | cons x xs ihx =>
    intro fuel b cap len ys h hle hq hnx hcap
    have ha : softserial_available b ≠ 0 := by
      have hl := queued_length b
      rw [hq] at hl
      simp at hl
      omega
    obtain ⟨m, rfl⟩ : ∃ m, fuel = m + 1 := ⟨fuel - 1, by omega⟩
    have hqc := getc_queued b h ha
    rw [hq] at hqc
    simp only [List.cons_append, List.cons.injEq] at hqc
    have hx10 : ¬((softserial_getc b).1 = 10) := by
      rw [← hqc.1]
      intro hx
      exact hnx (by rw [hx]; exact List.mem_cons_self 10 xs)
    have hlt : len < cap := by
      rw [List.length_cons] at hcap
      omega
    have IH := ihx m (softserial_getc b).2 cap (len + 1) ys (getc_inv b h)
      (by have := getc_avail b h ha; omega)
      hqc.2.symm (fun hm => hnx (List.mem_cons_of_mem x hm))
      (by rw [List.length_cons] at hcap; omega)
    unfold read_loop
    rw [if_pos ha, if_neg (fun hc => hx10 hc.2), if_pos hlt]
    dsimp only
    exact ⟨by rw [IH.1, ← hqc.1], IH.2⟩

theorem readline_spec (b : Buffer) (maxlen : Nat) (xs ys : List Nat)
    (h : Inv b) (hov : b.overrun = 0)
    (hq : queued b = xs ++ 10 :: ys) (hnx : 10 ∉ xs)
    (hcap : xs.length ≤ sizeCap maxlen) :
    (softserial_readline b maxlen).1 = (xs.length : Int) ∧
    (softserial_readline b maxlen).2.1 = xs ++ [0] ∧
    queued (softserial_readline b maxlen).2.2 = ys := by
  have hov2 : softserial_overrun b = (b.overrun, b) := by
    unfold softserial_overrun
    rw [if_neg (not_not_intro hov)]
  have hloop := read_loop_line_spec xs 64 b (sizeCap maxlen) 0 ys h
    (le_of_lt (avail_lt b)) hq hnx (by omega)
  unfold softserial_readline read_internal
  rw [hov2]
  dsimp only
  rw [if_neg (not_not_intro hov)]
  dsimp only
  rw [hloop.1, hloop.2]
  exact ⟨rfl, rfl, rfl⟩

/-- C8: with the bytes "AB\nCD" (65, 66, 10, 67, 68) queued, the
overrun flag clear and `6 ≤ max_len` (a 32-bit `size_t`),
`softserial_readline` returns count 2 with output bytes 65, 66
followed by the 0 sentinel, consumes the line feed without including
it in the output, and leaves exactly 67, 68 queued for the next
call. -/
theorem claim8_readline (maxlen : Nat) (h6 : 6 ≤ maxlen)
    (hsz : maxlen < 2 ^ 32) :
    (softserial_readline abcdB maxlen).1 = 2 ∧
    (softserial_readline abcdB maxlen).2.1 = [65, 66, 0] ∧
    queued (softserial_readline abcdB maxlen).2.2 = [67, 68] := by
  have hcap : ([65, 66] : List Nat).length ≤ sizeCap maxlen := by
    unfold sizeCap
    rw [List.length_cons, List.length_cons, List.length_nil]
    omega
  have h := readline_spec abcdB maxlen [65, 66] [67, 68] (by decide) rfl
    (by decide) (by decide) hcap
  exact ⟨h.1, h.2.1, h.2.2⟩

/-- Witness for C8 at `max_len = 6`. -/
theorem claim8_readline_witness :
    6 ≤ 6 ∧ 6 < 2 ^ 32 ∧ (softserial_readline abcdB 6).2.1 = [65, 66, 0] :=
  ⟨le_refl 6, by norm_num, (claim8_readline 6 (le_refl 6) (by norm_num)).2.1⟩

theorem lor_eq_zero (a b : Nat) : a ||| b = 0 ↔ a = 0 ∧ b = 0 := by
  constructor
  · intro h
    have ha : a = 0 := Nat.eq_of_testBit_eq (fun i => by
      have hi := congrArg (fun x => Nat.testBit x i) h
      simp [Nat.testBit_or] at hi
      simp [hi.1])
    have hb : b = 0 := Nat.eq_of_testBit_eq (fun i => by
      have hi := congrArg (fun x => Nat.testBit x i) h
      simp [Nat.testBit_or] at hi
      simp [hi.2])
    exact ⟨ha, hb⟩
  · rintro ⟨rfl, rfl⟩
    rfl

theorem check_pins_spec (g : GlobalState) (out_pbm in_pbm : Nat) :
    ((check_pins g out_pbm in_pbm).1 ≠ 0 ↔
      in_pbm &&& out_pbm ≠ 0 ∨
        g.used_pins &&& (in_pbm ||| out_pbm) ≠ 0) ∧
    ((check_pins g out_pbm in_pbm).1 ≠ 0 →
      check_pins g out_pbm in_pbm = (ESP_ERR_INVALID_ARG, g)) ∧
    ((check_pins g out_pbm in_pbm).1 = 0 →
      check_pins g out_pbm in_pbm =
        (0, { g with used_pins := g.used_pins ||| (in_pbm ||| out_pbm) })) := by
  have hdist := Nat.and_or_distrib_left g.used_pins in_pbm out_pbm
  refine ⟨?_, ?_, ?_⟩
  · unfold check_pins ESP_ERR_INVALID_ARG
    split_ifs with h1 h2 h3 <;> dsimp only
    · exact ⟨fun _ => Or.inl h1, fun _ => by omega⟩
    · refine ⟨fun _ => Or.inr ?_, fun _ => by omega⟩
      rw [hdist]
      intro hz
      exact h2 ((lor_eq_zero _ _).mp hz).2
    · refine ⟨fun _ => Or.inr ?_, fun _ => by omega⟩
      rw [hdist]
      intro hz
      exact h3 ((lor_eq_zero _ _).mp hz).1
    · refine ⟨fun hz => absurd rfl hz, fun hor => ?_⟩
      rcases hor with hc | hc
      · exact absurd hc h1
      · rw [hdist] at hc
        exact absurd ((lor_eq_zero _ _).mpr
          ⟨by omega, by omega⟩) hc
  · unfold check_pins ESP_ERR_INVALID_ARG
    split_ifs <;> intro hne
    · rfl
    · rfl
    · rfl
    · exact absurd rfl hne
  · unfold check_pins ESP_ERR_INVALID_ARG
    split_ifs <;> intro hz
    · exact absurd hz (by decide)
    · exact absurd hz (by decide)
    · exact absurd hz (by decide)
    · rfl

/-- C7: pin claiming (`check_pins`) fails exactly when the RX mask
intersects the TX mask or a requested pin intersects the claimed set
`used_pins`; on failure the claimed set (and the whole global state) is
unchanged, and on success the requested pins are unioned into
`used_pins` in one step.  Concretely, claiming TX=2, RX=4 and then
TX=4, RX=5 fails with `ESP_ERR_INVALID_ARG` while the first claim
stays intact. -/
theorem claim7_check_pins (g : GlobalState) (out_pbm in_pbm : Nat) :
    ((check_pins g out_pbm in_pbm).1 ≠ 0 ↔
      in_pbm &&& out_pbm ≠ 0 ∨
        g.used_pins &&& (in_pbm ||| out_pbm) ≠ 0) ∧
    ((check_pins g out_pbm in_pbm).1 ≠ 0 →
      (check_pins g out_pbm in_pbm).2 = g) ∧
    ((check_pins g out_pbm in_pbm).1 = 0 →
      (check_pins g out_pbm in_pbm).2.used_pins =
        g.used_pins ||| (in_pbm ||| out_pbm)) ∧
    (check_pins (check_pins { used_pins := 0, numinstances := 0 }
        (1 <<< 2) (1 <<< 4)).2 (1 <<< 4) (1 <<< 5)).1 =
      ESP_ERR_INVALID_ARG ∧
    (check_pins (check_pins { used_pins := 0, numinstances := 0 }
        (1 <<< 2) (1 <<< 4)).2 (1 <<< 4) (1 <<< 5)).2 =
      (check_pins { used_pins := 0, numinstances := 0 }
        (1 <<< 2) (1 <<< 4)).2 := by
  obtain ⟨hiff, hfail, hsucc⟩ := check_pins_spec g out_pbm in_pbm
  refine ⟨hiff, fun hne => by rw [hfail hne], fun hz => by rw [hsucc hz],
    by decide, by decide⟩

/-- C4 as stated is false: `check_pins` claims the pins *before* the
baud-rate check, and `softserial_init` does not roll that back when it
fails afterwards.  With no pins claimed, valid distinct pins TX=2,
RX=4, features RX|TX, but `baudrate = 0`, init returns
`ESP_ERR_INVALID_ARG`, yet `used_pins` becomes `0b10100` (pins 2 and
4), not the pre-call value 0: partial-success state remains. -/
theorem claim4_init_cex :
    (softserial_init g0 cfgBaud0 pOk).1 = ESP_ERR_INVALID_ARG ∧
    (softserial_init g0 cfgBaud0 pOk).2 ≠ g0 ∧
    (softserial_init g0 cfgBaud0 pOk).2.used_pins = 20 ∧
    (softserial_init g0 cfgBaud0 pOk).2.numinstances = 0 := by
  decide

/-- C4 (amended): only the pin-conflict error leaves no
partial-success state: when `check_pins` rejects (RX mask meets TX
mask, or a requested pin is already claimed), `softserial_init`
returns `ESP_ERR_INVALID_ARG` with `used_pins` and `numinstances`
exactly as before the call.  When the pins are accepted but the baud
rate is 0, init still returns `ESP_ERR_INVALID_ARG`, but the requested
pins remain unioned into `used_pins` (`numinstances` is unchanged on
this path).  And when pins and baud are accepted (with the ISR
service installing cleanly) but the platform rejects the TX pin
configuration, init returns that error with the requested pins still
unioned into `used_pins` and `numinstances` still incremented. -/
theorem claim4_init (g : GlobalState) (c : Config) (p : Platform) :
    ((rx_mask c &&& tx_mask c ≠ 0 ∨
        g.used_pins &&& (rx_mask c ||| tx_mask c) ≠ 0) →
      softserial_init g c p = (ESP_ERR_INVALID_ARG, g)) ∧
    (rx_mask c &&& tx_mask c = 0 →
      g.used_pins &&& (rx_mask c ||| tx_mask c) = 0 →
      c.baudrate = 0 →
      softserial_init g c p =
        (ESP_ERR_INVALID_ARG,
         { g with
           used_pins := g.used_pins ||| (rx_mask c ||| tx_mask c) })) ∧
    (rx_mask c &&& tx_mask c = 0 →
      g.used_pins &&& (rx_mask c ||| tx_mask c) = 0 →
      c.baudrate ≠ 0 →
      p.install_isr_ret = 0 →
      c.features &&& SOFTSERIAL_USE_TX ≠ 0 →
      p.tx_config_ret ≠ 0 →
      softserial_init g c p =
        (p.tx_config_ret,
         bumpInstances
           { g with
             used_pins := g.used_pins ||| (rx_mask c ||| tx_mask c) })) := by
  obtain ⟨hiff, hfail, hsucc⟩ :=
    check_pins_spec g (tx_mask c) (rx_mask c)
  refine ⟨?_, ?_, ?_⟩
  · intro hor
    have hne := hiff.mpr hor
    have heq := hfail hne
    unfold softserial_init
    rw [heq]
    rfl
  · intro h1 h2 hbaud
    have hz : (check_pins g (tx_mask c) (rx_mask c)).1 = 0 := by
      by_contra hne
      rcases hiff.mp hne with hc | hc
      · exact hc h1
      · exact hc h2
    have heq := hsucc hz
    unfold softserial_init
    rw [heq, hbaud]
    rfl
  · intro h1 h2 hbaud hinst hftx htx
    have hz : (check_pins g (tx_mask c) (rx_mask c)).1 = 0 := by
      by_contra hne
      rcases hiff.mp hne with hc | hc
      · exact hc h1
      · exact hc h2
    have heq := hsucc hz
    unfold softserial_init
    rw [heq]
    split_ifs with ha hb hc2 hd he
    · exact (ha rfl).elim
    · exact (hb.2.1 hinst).elim
    · rfl
    · exact (hc2 ⟨hftx, htx⟩).elim
    · exact (hc2 ⟨hftx, htx⟩).elim
    · exact (hc2 ⟨hftx, htx⟩).elim

/-- Witness for C4 at concrete inputs: a pin-conflict failure keeps the
globals, while a platform-rejected TX configuration (valid pins and
baud, ISR service installs cleanly, `gpio_config` for TX fails) keeps
the pins claimed and the instance counter incremented. -/
theorem claim4_init_witness :
    (rx_mask cfgConflict &&& tx_mask cfgConflict ≠ 0 ∨
      g0.used_pins &&& (rx_mask cfgConflict ||| tx_mask cfgConflict) ≠ 0) ∧
    softserial_init g0 cfgConflict pOk = (ESP_ERR_INVALID_ARG, g0) ∧
    (rx_mask cfgOk &&& tx_mask cfgOk = 0 ∧
      g0.used_pins &&& (rx_mask cfgOk ||| tx_mask cfgOk) = 0 ∧
      cfgOk.baudrate ≠ 0 ∧ pFailTx.install_isr_ret = 0 ∧
      cfgOk.features &&& SOFTSERIAL_USE_TX ≠ 0 ∧
      pFailTx.tx_config_ret ≠ 0) ∧
    softserial_init g0 cfgOk pFailTx =
      (pFailTx.tx_config_ret,
       bumpInstances
         { g0 with
           used_pins := g0.used_pins ||| (rx_mask cfgOk ||| tx_mask cfgOk) }) :=
  ⟨Or.inl (by decide),
   (claim4_init g0 cfgConflict pOk).1 (Or.inl (by decide)),
   ⟨by decide, by decide, by decide, by decide, by decide, by decide⟩,
   (claim4_init g0 cfgOk pFailTx).2.2 (by decide) (by decide) (by decide)
     (by decide) (by decide) (by decide)⟩

/-- C5 as stated is false for small bauds: `bit_time` is a `uint16_t`
field, so the stored quotient is truncated mod 2^16.  At `baud = 1`
the spec formula gives 1000000, but the code stores
`1000000 mod 65536 = 16960`, finds the 32-bit remainder check
satisfied, and ends with 16961. -/
theorem claim5_bit_time_cex :
    compute_bit_time 1 = some 16961 ∧
    bit_time_spec 1 = some 1000000 ∧
    compute_bit_time 1 ≠ bit_time_spec 1 := by
  decide

/-- C5 (amended): the computation fails exactly when `baud = 0` (the
baud field is unsigned, so `baud <= 0` means zero).  For every
`baud ≥ 16` — precisely when `floor(1000000/baud)` fits the 16-bit
`bit_time` field — the computed bit time equals
`base = floor(1000000/baud)`, incremented by one exactly when
`floor(100000000/baud) - 100*base > 50`; for smaller positive bauds
the stored value is truncated mod 2^16.  In particular
`compute(9600) = 104`, and at `baud = 110` the increment is taken
(9090 becomes 9091). -/
theorem claim5_bit_time (baud : Nat) :
    (compute_bit_time baud = none ↔ baud = 0) ∧
    (16 ≤ baud → compute_bit_time baud = bit_time_spec baud) ∧
    compute_bit_time 9600 = some 104 ∧
    compute_bit_time 110 = some (1000000 / 110 + 1) := by
  refine ⟨?_, ?_, by decide, by decide⟩
  · unfold compute_bit_time
    split_ifs with h0 h1
    · simp [h0]
    · exact ⟨fun hc => absurd hc (by simp), fun hc => absurd hc h0⟩
    · exact ⟨fun hc => absurd hc (by simp), fun hc => absurd hc h0⟩
  · intro h16
    have hb : ¬(baud = 0) := by omega
    have hbase_le : 1000000 / baud ≤ 62500 := by
      have h62 : (1000000 : Nat) / 16 = 62500 := by norm_num
      have h := @Nat.div_le_div_left 1000000 baud 16 h16 (by norm_num)
      omega
    have hmod : 1000000 / baud % 2 ^ 16 = 1000000 / baud :=
      Nat.mod_eq_of_lt (by omega)
    have hA_le : 100000000 / baud ≤ 100000000 := Nat.div_le_self _ _
    have hmul : 100 * (1000000 / baud) ≤ 100000000 / baud := by
      rw [Nat.le_div_iff_mul_le (by omega : 0 < baud)]
      have h1 : 1000000 / baud * baud ≤ 1000000 :=
        Nat.div_mul_le_self _ _
      calc 100 * (1000000 / baud) * baud
          = 100 * (1000000 / baud * baud) := by ring
        _ ≤ 100 * 1000000 := by omega
        _ = 100000000 := by norm_num
    have hsub : (100000000 / baud + 2 ^ 32 - 100 * (1000000 / baud)) %
        2 ^ 32 = 100000000 / baud - 100 * (1000000 / baud) := by
      omega
    unfold compute_bit_time bit_time_spec
    rw [if_neg hb, if_neg hb, hmod, hsub]
    split
    · rw [Nat.mod_eq_of_lt (by omega)]
    · rfl

/-- Witness for C5 (amended) at `baud = 9600`. -/
theorem claim5_bit_time_witness :
    16 ≤ 9600 ∧ compute_bit_time 9600 = bit_time_spec 9600 :=
  ⟨by norm_num, (claim5_bit_time 9600).2.1 (by norm_num)⟩

theorem putchar_events_eq (data T : Nat) :
    putchar_events data T =
      [(0, 0),
       (T * 1, chbit data (1 <<< 0)), (T * 2, chbit data (1 <<< 1)),
       (T * 3, chbit data (1 <<< 2)), (T * 4, chbit data (1 <<< 3)),
       (T * 5, chbit data (1 <<< 4)), (T * 6, chbit data (1 <<< 5)),
       (T * 7, chbit data (1 <<< 6)), (T * 8, chbit data (1 <<< 7)),
       (T * 9, 1)] := by
  unfold putchar_events
  norm_num [List.range_succ]

theorem line_sample_0 (data T : Nat) (hT : 1 ≤ T) :
    line_level (putchar_events data T) (T / 2 + T * (0 + 1)) =
      chbit data (1 <<< 0) := by
  rw [putchar_events_eq]
  unfold line_level
  simp only [List.foldl_cons, List.foldl_nil]
  rw [if_neg (by omega : ¬(T * 9 ≤ T / 2 + T * (0 + 1)))]
  rw [if_neg (by omega : ¬(T * 8 ≤ T / 2 + T * (0 + 1)))]
  rw [if_neg (by omega : ¬(T * 7 ≤ T / 2 + T * (0 + 1)))]
  rw [if_neg (by omega : ¬(T * 6 ≤ T / 2 + T * (0 + 1)))]
  rw [if_neg (by omega : ¬(T * 5 ≤ T / 2 + T * (0 + 1)))]
  rw [if_neg (by omega : ¬(T * 4 ≤ T / 2 + T * (0 + 1)))]
  rw [if_neg (by omega : ¬(T * 3 ≤ T / 2 + T * (0 + 1)))]
  rw [if_neg (by omega : ¬(T * 2 ≤ T / 2 + T * (0 + 1)))]
  rw [if_pos (by omega : T * 1 ≤ T / 2 + T * (0 + 1))]

theorem line_sample_1 (data T : Nat) (hT : 1 ≤ T) :
    line_level (putchar_events data T) (T / 2 + T * (1 + 1)) =
      chbit data (1 <<< 1) := by
  rw [putchar_events_eq]
  unfold line_level
  simp only [List.foldl_cons, List.foldl_nil]
  rw [if_neg (by omega : ¬(T * 9 ≤ T / 2 + T * (1 + 1)))]
  rw [if_neg (by omega : ¬(T * 8 ≤ T / 2 + T * (1 + 1)))]
  rw [if_neg (by omega : ¬(T * 7 ≤ T / 2 + T * (1 + 1)))]
  rw [if_neg (by omega : ¬(T * 6 ≤ T / 2 + T * (1 + 1)))]
  rw [if_neg (by omega : ¬(T * 5 ≤ T / 2 + T * (1 + 1)))]
  rw [if_neg (by omega : ¬(T * 4 ≤ T / 2 + T * (1 + 1)))]
  rw [if_neg (by omega : ¬(T * 3 ≤ T / 2 + T * (1 + 1)))]
  rw [if_pos (by omega : T * 2 ≤ T / 2 + T * (1 + 1))]

theorem line_sample_2 (data T : Nat) (hT : 1 ≤ T) :
    line_level (putchar_events data T) (T / 2 + T * (2 + 1)) =
      chbit data (1 <<< 2) := by
  rw [putchar_events_eq]
  unfold line_level
  simp only [List.foldl_cons, List.foldl_nil]
  rw [if_neg (by omega : ¬(T * 9 ≤ T / 2 + T * (2 + 1)))]
  rw [if_neg (by omega : ¬(T * 8 ≤ T / 2 + T * (2 + 1)))]
  rw [if_neg (by omega : ¬(T * 7 ≤ T / 2 + T * (2 + 1)))]
  rw [if_neg (by omega : ¬(T * 6 ≤ T / 2 + T * (2 + 1)))]
  rw [if_neg (by omega : ¬(T * 5 ≤ T / 2 + T * (2 + 1)))]
  rw [if_neg (by omega : ¬(T * 4 ≤ T / 2 + T * (2 + 1)))]
  rw [if_pos (by omega : T * 3 ≤ T / 2 + T * (2 + 1))]

theorem line_sample_3 (data T : Nat) (hT : 1 ≤ T) :
    line_level (putchar_events data T) (T / 2 + T * (3 + 1)) =
      chbit data (1 <<< 3) := by
  rw [putchar_events_eq]
  unfold line_level
  simp only [List.foldl_cons, List.foldl_nil]
  rw [if_neg (by omega : ¬(T * 9 ≤ T / 2 + T * (3 + 1)))]
  rw [if_neg (by omega : ¬(T * 8 ≤ T / 2 + T * (3 + 1)))]
  rw [if_neg (by omega : ¬(T * 7 ≤ T / 2 + T * (3 + 1)))]
  rw [if_neg (by omega : ¬(T * 6 ≤ T / 2 + T * (3 + 1)))]
  rw [if_neg (by omega : ¬(T * 5 ≤ T / 2 + T * (3 + 1)))]
  rw [if_pos (by omega : T * 4 ≤ T / 2 + T * (3 + 1))]

theorem line_sample_4 (data T : Nat) (hT : 1 ≤ T) :
    line_level (putchar_events data T) (T / 2 + T * (4 + 1)) =
      chbit data (1 <<< 4) := by
  rw [putchar_events_eq]
  unfold line_level
  simp only [List.foldl_cons, List.foldl_nil]
  rw [if_neg (by omega : ¬(T * 9 ≤ T / 2 + T * (4 + 1)))]
  rw [if_neg (by omega : ¬(T * 8 ≤ T / 2 + T * (4 + 1)))]
  rw [if_neg (by omega : ¬(T * 7 ≤ T / 2 + T * (4 + 1)))]
  rw [if_neg (by omega : ¬(T * 6 ≤ T / 2 + T * (4 + 1)))]
  rw [if_pos (by omega : T * 5 ≤ T / 2 + T * (4 + 1))]

theorem line_sample_5 (data T : Nat) (hT : 1 ≤ T) :
    line_level (putchar_events data T) (T / 2 + T * (5 + 1)) =
      chbit data (1 <<< 5) := by
  rw [putchar_events_eq]
  unfold line_level
  simp only [List.foldl_cons, List.foldl_nil]
  rw [if_neg (by omega : ¬(T * 9 ≤ T / 2 + T * (5 + 1)))]
  rw [if_neg (by omega : ¬(T * 8 ≤ T / 2 + T * (5 + 1)))]
  rw [if_neg (by omega : ¬(T * 7 ≤ T / 2 + T * (5 + 1)))]
  rw [if_pos (by omega : T * 6 ≤ T / 2 + T * (5 + 1))]

theorem line_sample_6 (data T : Nat) (hT : 1 ≤ T) :
    line_level (putchar_events data T) (T / 2 + T * (6 + 1)) =
      chbit data (1 <<< 6) := by
  rw [putchar_events_eq]
  unfold line_level
  simp only [List.foldl_cons, List.foldl_nil]
  rw [if_neg (by omega : ¬(T * 9 ≤ T / 2 + T * (6 + 1)))]
  rw [if_neg (by omega : ¬(T * 8 ≤ T / 2 + T * (6 + 1)))]
  rw [if_pos (by omega : T * 7 ≤ T / 2 + T * (6 + 1))]

theorem line_sample_7 (data T : Nat) (hT : 1 ≤ T) :
    line_level (putchar_events data T) (T / 2 + T * (7 + 1)) =
      chbit data (1 <<< 7) := by
  rw [putchar_events_eq]
  unfold line_level
  simp only [List.foldl_cons, List.foldl_nil]
  rw [if_neg (by omega : ¬(T * 9 ≤ T / 2 + T * (7 + 1)))]
  rw [if_pos (by omega : T * 8 ≤ T / 2 + T * (7 + 1))]
theorem line_at_sample (data T i : Nat) (hT : 1 ≤ T) (hi : i < 8) :
    line_level (putchar_events data T) (T / 2 + T * (i + 1)) =
      chbit data (1 <<< i) := by
  interval_cases i
  · exact line_sample_0 data T hT
  · exact line_sample_1 data T hT
  · exact line_sample_2 data T hT
  · exact line_sample_3 data T hT
  · exact line_sample_4 data T hT
  · exact line_sample_5 data T hT
  · exact line_sample_6 data T hT
  · exact line_sample_7 data T hT

set_option maxRecDepth 8000 in
theorem rx_decode_all :
    ∀ data < 256,
      (List.range 8).foldl
        (fun acc i => rx_decode_step acc (chbit data (1 <<< i))) 0 =
        data := by
  decide

/-- C1: for every byte value, driving the TX pin according to
`softserial_putchar` (start bit low at the edge, data bits 0..7 LSB
first at offsets `bit_time*(i+1)`, stop bit high at `bit_time*9`) and
reading the line back at the receiver offsets of `softserial_isr`
(`bit_time/2 + bit_time*(i+1)` from the edge) through the decode rule
(shift right, OR `0x80` on a read of 1) reconstructs exactly the
original byte, bit order preserved — for any positive bit time. -/
theorem claim1_roundtrip (data bit_time : Nat) (hd : data < 256)
    (hT : 1 ≤ bit_time) :
    rx_sample (line_level (putchar_events data bit_time)) bit_time =
      data := by
  unfold rx_sample
  have hext := List.foldl_ext
    (fun acc i => rx_decode_step acc
      (line_level (putchar_events data bit_time)
        (bit_time / 2 + bit_time * (i + 1))))
    (fun acc i => rx_decode_step acc (chbit data (1 <<< i)))
    0 (l := List.range 8)
    (fun acc i hi => by
      show rx_decode_step acc
          (line_level (putchar_events data bit_time)
            (bit_time / 2 + bit_time * (i + 1))) =
        rx_decode_step acc (chbit data (1 <<< i))
      rw [line_at_sample data bit_time i hT (List.mem_range.mp hi)])
  rw [hext]
  exact rx_decode_all data hd

/-- Witness for C1 at byte 0xA5 (165) and the 9600-baud bit time. -/
theorem claim1_roundtrip_witness :
    (165 : Nat) < 256 ∧ (1 : Nat) ≤ 104 ∧
    rx_sample (line_level (putchar_events 165 104)) 104 = 165 :=
  ⟨by norm_num, by norm_num,
   claim1_roundtrip 165 104 (by norm_num) (by norm_num)⟩

/-- Witness for C7 at concrete masks. -/
theorem claim7_check_pins_witness :
    ((check_pins { used_pins := 0, numinstances := 0 } 4 4).1 ≠ 0 ↔
      (4 : Nat) &&& 4 ≠ 0 ∨ (0 : Nat) &&& (4 ||| 4) ≠ 0) ∧
    ((check_pins { used_pins := 0, numinstances := 0 } 4 16).1 = 0 →
      (check_pins { used_pins := 0, numinstances := 0 } 4 16).2.used_pins =
        0 ||| (16 ||| 4)) :=
  ⟨(claim7_check_pins { used_pins := 0, numinstances := 0 } 4 4).1,
   (claim7_check_pins { used_pins := 0, numinstances := 0 } 4 16).2.2.1⟩

end SoftSerial
